import Mathlib

/-!
Shallow embedding of the multi-agent answer-orchestration pipeline of the
workforce-luxembourg repository (planner, retrieval adapter with TTL cache,
domain specialist responders, synthesizer, response assembler), together with
proofs of the behavioural properties stated in its specification.

Conventions of the embedding:
* Every call to the completion service together with the subsequent
  `JSON.parse` is modelled by an explicit parameter of type `Option P`, where
  `P` is a record of the JSON fields the source reads; `none` models the call
  throwing or returning output that is not parseable JSON (both land in the
  same `catch` in the source).
* JavaScript field-default expressions `x.f || d` are modelled by `jsOrStr`,
  `jsOrNum` and `jsOrArr`, reproducing JavaScript truthiness: the empty string
  and the number 0 are falsy, while every array (including `[]`) is truthy.
* `Math.random`-based evidence-id generation is modelled by a threaded
  counter, and `new Date()` by explicit `now : Nat` (milliseconds) and
  `today : String` parameters.
* TypeScript string-literal union types (`Language`, `ConfidenceLevel`, ...)
  are modelled as `String`, because the source casts unvalidated JSON values
  into them without runtime checks.
-/

namespace Workforce

/-- Evidence item, from shared/types-independent.ts (interface Evidence). -/
structure Evidence where
  evidence_id : String
  url : String
  title : String
  «section» : String
  snippet : String
  source : String
  retrieved_at : String
deriving Repr, DecidableEq

/-- Citation, from shared/types-independent.ts (interface Citation). -/
structure Citation where
  title : String
  url : String
  «section» : String
  retrieved_at : String
  evidence_ids : List String
deriving Repr, DecidableEq

/-- Final response, from shared/types-independent.ts (interface ChatResponse). -/
structure ChatResponse where
  language : String
  answer : String
  steps : List String
  citations : List Citation
  confidence : String
  limitations : List String
  suggested_searches : List String
  evidence : List Evidence
deriving Repr, DecidableEq

/-- Planner output, from shared/types-independent.ts (interface OrchestratorPlan). -/
structure OrchestratorPlan where
  language : String
  intent : String
  confidence : ℚ
  reasoning : String
  retrieval_queries : List String
  agents_to_call : List String
deriving Repr, DecidableEq

/-- Specialist answer, from shared/types-independent.ts (interface AgentResponse). -/
structure AgentResponse where
  agent : String
  answer : String
  steps : List String
  evidence : List Evidence
  confidence : String
  limitations : List String
  suggested_searches : List String
deriving Repr, DecidableEq

/-- Raw retrieval result, from shared/types-independent.ts (interface RetrievalResult). -/
structure RetrievalResult where
  url : String
  title : String
  «section» : String
  snippet : String
  source : String
  retrieved_at : String
deriving Repr, DecidableEq

/-- JavaScript `o.f || d` for a string-valued JSON field: a missing or null
field and the empty string are falsy and fall back to the default. -/
def jsOrStr (o : Option String) (d : String) : String :=
  match o with
  | some s => if s = "" then d else s
  | none => d

/-- JavaScript `o.f || d` for a number-valued JSON field: a missing or null
field and the number 0 are falsy and fall back to the default. -/
def jsOrNum (o : Option ℚ) (d : ℚ) : ℚ :=
  match o with
  | some c => if c = 0 then d else c
  | none => d

/-- JavaScript `o.f || d` for an array-valued JSON field: only a missing or
null field falls back; every array, including the empty one, is truthy. -/
def jsOrArr {α : Type} (o : Option (List α)) (d : List α) : List α :=
  match o with
  | some l => l
  | none => d

/-- Character-list core of JavaScript `String.prototype.includes`: `true` iff
`pat` occurs contiguously inside the second list. -/
def hasSubChars (pat : List Char) : List Char → Bool
  | [] => pat.isEmpty
  | c :: rest => List.isPrefixOf pat (c :: rest) || hasSubChars pat rest

/-- JavaScript `hay.includes(pat)`. -/
def strIncludes (hay pat : String) : Bool :=
  hasSubChars pat.toList hay.toList

/-- JavaScript `s.toLowerCase()`, modelled as a character-wise map. -/
def strToLower (s : String) : String :=
  String.mk (s.toList.map Char.toLower)

/-- Fields of the planner's parsed JSON output read by `planRequest`
(src/unnamed/part_004); `none` models an absent (or null) field. -/
structure PlannerParsed where
  language : Option String
  intent : Option String
  confidence : Option ℚ
  reasoning : Option String
  retrieval_queries : Option (List String)
  agents_to_call : Option (List String)
deriving Repr, DecidableEq

/-- Fields of the parsed JSON output read by the two specialist agents and by
the synthesizer (they read the same five fields); `none` models an absent (or
null) field. -/
structure AgentParsed where
  answer : Option String
  steps : Option (List String)
  confidence : Option String
  limitations : Option (List String)
  suggested_searches : Option (List String)
deriving Repr, DecidableEq

/-- Embedding of `planRequest` (src/unnamed/part_004, orchestrator agent).
The `llm` parameter is the outcome of the completion call plus `JSON.parse`;
`none` (the call threw, or its output was not parseable JSON) takes the
`catch` branch, which returns the fixed fallback plan. The embedding is a
total function: `planRequest` never raises to its caller. -/
def planRequest (llm : Option PlannerParsed) (question : String)
    (conversationHistory : List (String × String)) : OrchestratorPlan :=
  match llm with
  | some parsed =>
      { language := jsOrStr parsed.language "en"
        intent := jsOrStr parsed.intent "mixed"
        confidence := jsOrNum parsed.confidence (1/2)
        reasoning := jsOrStr parsed.reasoning ""
        retrieval_queries := jsOrArr parsed.retrieval_queries [question]
        agents_to_call := jsOrArr parsed.agents_to_call ["guichet", "legal"] }
  | none =>
      { language := "en"
        intent := "mixed"
        confidence := 1/2
        reasoning := "Fallback plan due to processing error"
        retrieval_queries := [question]
        agents_to_call := ["guichet", "legal"] }

/-- Disclaimer string that `processLegalQuery` unshifts when the parsed
limitations lack one (src/server/agents/legal.ts). -/
def legalDisclaimer : String :=
  "This is not legal advice. Consult a qualified lawyer for legal decisions."

/-- Embedding of `processLegalQuery` (src/server/agents/legal.ts). On a
parsed completion output it applies the JS field defaults and prepends the
fixed disclaimer unless some limitation already contains "legal advice"
case-insensitively; on a thrown/unparseable completion (`none`) it returns
the fixed low-confidence fallback. It never raises. -/
def processLegalQuery (llm : Option AgentParsed) (question language : String)
    (evidence : List Evidence) : AgentResponse :=
  match llm with
  | some parsed =>
      let limitations0 := jsOrArr parsed.limitations []
      let limitations :=
        if limitations0.any (fun l => strIncludes (strToLower l) "legal advice") then
          limitations0
        else legalDisclaimer :: limitations0
      { agent := "legal"
        answer := jsOrStr parsed.answer ""
        steps := jsOrArr parsed.steps []
        evidence := evidence
        confidence := jsOrStr parsed.confidence "medium"
        limitations := limitations
        suggested_searches := jsOrArr parsed.suggested_searches [] }
  | none =>
      { agent := "legal"
        answer := "Unable to process your question with available legal information."
        steps := []
        evidence := evidence
        confidence := "low"
        limitations :=
          ["This is not legal advice. Consult a qualified lawyer.",
           "Error processing legal sources."]
        suggested_searches := [] }

/-- Embedding of `processGuichetQuery` (src/unnamed/part_003, guichet agent). -/
def processGuichetQuery (llm : Option AgentParsed) (question language : String)
    (evidence : List Evidence) : AgentResponse :=
  match llm with
  | some parsed =>
      { agent := "guichet"
        answer := jsOrStr parsed.answer ""
        steps := jsOrArr parsed.steps []
        evidence := evidence
        confidence := jsOrStr parsed.confidence "medium"
        limitations := jsOrArr parsed.limitations
          ["This information is from guichet.public.lu and current as of retrieval date.",
           "Individual circumstances may affect eligibility."]
        suggested_searches := jsOrArr parsed.suggested_searches [] }
  | none =>
      { agent := "guichet"
        answer := "Unable to process your question with available procedural information."
        steps := []
        evidence := evidence
        confidence := "low"
        limitations := ["Error processing Guichet sources."]
        suggested_searches := [] }

/-- The fixed contradictory keyword pairs of `detectConflicts`
(src/server/agents/legal.ts). -/
def contradictionPairs : List (String × String) :=
  [("must", "must not"), ("required", "optional"), ("mandatory", "voluntary")]

/-- Warning string pushed by `detectConflicts` for a keyword pair. -/
def conflictWarning (word1 word2 : String) : String :=
  "Potential conflict: sources mention both \"" ++ word1 ++ "\" and \"" ++ word2 ++ "\""

/-- Embedding of `detectConflicts` (src/server/agents/legal.ts): only for
lists of more than one evidence item, it lowercases every snippet and emits a
warning for each keyword pair whose two members both occur somewhere across
the snippets. -/
def detectConflicts (evidence : List Evidence) : List String :=
  if 1 < evidence.length then
    let snippets := evidence.map (fun e => strToLower e.snippet)
    contradictionPairs.filterMap (fun p =>
      if snippets.any (fun s => strIncludes s p.1) && snippets.any (fun s => strIncludes s p.2)
      then some (conflictWarning p.1 p.2) else none)
  else []

/-- Entry of the in-memory retrieval cache (src/server/retrieval/index.ts):
raw results plus the `Date.now()` timestamp at which they were stored. -/
structure CacheEntry where
  results : List RetrievalResult
  timestamp : Nat
deriving Repr, DecidableEq

/-- The process-wide retrieval cache, a JavaScript `Map` modelled as an
association list with unique keys; `cacheGet` returns the first binding. -/
abbrev Cache := List (String × CacheEntry)

/-- Cache TTL from src/server/retrieval/index.ts (24 hours in milliseconds). -/
def CACHE_TTL_MS : Nat := 24 * 60 * 60 * 1000

/-- JavaScript `query.replace(/\s+/g, "_")`: every maximal run of whitespace
becomes a single underscore. `prevWs` records whether the previous character
belonged to a whitespace run. -/
def collapseWs (prevWs : Bool) : List Char → List Char
  | [] => []
  | c :: cs =>
      if c.isWhitespace then
        if prevWs then collapseWs true cs else '_' :: collapseWs true cs
      else c :: collapseWs false cs

/-- Embedding of `getCacheKey` (src/server/retrieval/index.ts):
the string `source ++ ":" ++ query.toLowerCase().replace(/\s+/g, "_")`. -/
def getCacheKey (query source : String) : String :=
  source ++ ":" ++ String.mk (collapseWs false (strToLower query).toList)

/-- JavaScript `Map.get`: the binding of the key, if any (keys are unique, so
the first binding is the binding). -/
def cacheGet (cache : Cache) (key : String) : Option CacheEntry :=
  match cache with
  | [] => none
  | (k, v) :: rest => if key = k then some v else cacheGet rest key

/-- JavaScript `Map.delete`. -/
def cacheDelete (cache : Cache) (key : String) : Cache :=
  cache.filter (fun p => p.1 != key)

/-- JavaScript `Map.set`; binding order is irrelevant to the embedding, so a
replaced key moves to the front. -/
def cacheSet (cache : Cache) (key : String) (entry : CacheEntry) : Cache :=
  (key, entry) :: cacheDelete cache key

/-- Embedding of `getCachedResults` (src/server/retrieval/index.ts). Returns
the cached raw results on a fresh hit, and the cache after the lazy eviction
performed on an expired entry. `now - timestamp` is `Nat` subtraction, which
agrees with the JavaScript number subtraction on every outcome of the `<`
comparison (a negative difference and a truncated-to-zero one are both below
the TTL). -/
def getCachedResults (cache : Cache) (now : Nat) (query source : String) :
    Option (List RetrievalResult) × Cache :=
  let key := getCacheKey query source
  match cacheGet cache key with
  | some cached =>
      if now - cached.timestamp < CACHE_TTL_MS then (some cached.results, cache)
      else (none, cacheDelete cache key)
  | none => (none, cache)

/-- Embedding of `cacheResults` (src/server/retrieval/index.ts). -/
def cacheResults (cache : Cache) (now : Nat) (query source : String)
    (results : List RetrievalResult) : Cache :=
  cacheSet cache (getCacheKey query source) ⟨results, now⟩

/-- Evidence id `ev_` + random suffix; the `Math.random` suffix is modelled by
a threaded counter, which keeps ids unique within a run. -/
def freshEvidenceId (ctr : Nat) : String := "ev_" ++ toString ctr

/-- Materialization of raw cached/fetched results into fresh `Evidence`
objects (the common `.map` in `retrieveGuichetEvidence` and
`retrieveLegalEvidence`): each result gets a newly generated id and today's
retrieval date, and the url/title/section/snippet are copied unchanged. -/
def materialize (results : List RetrievalResult) (source today : String)
    (ctr : Nat) : List Evidence × Nat :=
  match results with
  | [] => ([], ctr)
  | r :: rest =>
      let (evs, ctr1) := materialize rest source today (ctr + 1)
      ({ evidence_id := freshEvidenceId ctr
         url := r.url
         title := r.title
         «section» := r.«section»
         snippet := r.snippet
         source := source
         retrieved_at := today } :: evs, ctr1)

/-- Embedding of `getMockGuichetResults` (src/server/retrieval/index.ts);
the `new Date()`-derived date is the `today` parameter. -/
def getMockGuichetResults (query language today : String) : List RetrievalResult :=
  [{ url := "https://guichet.public.lu/en/citoyens/emploi-travail/contrat-travail"
     title := "Employment Contract"
     «section» := "Rights and Obligations"
     snippet := "An employment contract must be in writing and contain the essential terms of employment including salary, working hours, and duration."
     source := "guichet"
     retrieved_at := today }]

/-- Embedding of `getMockLegalResults` (src/server/retrieval/index.ts). -/
def getMockLegalResults (query language today : String) : List RetrievalResult :=
  [{ url := "https://legilux.public.lu/eli/etat/leg/loi/2018/05/08/a710"
     title := "Labour Code - Article 1"
     «section» := "General Provisions"
     snippet := "Every worker has the right to a written employment contract specifying the terms and conditions of employment."
     source := "legal"
     retrieved_at := today }]

/-- The per-query retrieval loop shared verbatim by `retrieveGuichetEvidence`
and `retrieveLegalEvidence` (src/server/retrieval/index.ts): for each query,
consult the cache; on a hit materialize the stored results, on a miss call
the per-query fetch, store its raw results, and materialize them. The `fetch`
parameter is the underlying per-query fetch (`getMockGuichetResults` resp.
`getMockLegalResults` in the repository). Returns the concatenated evidence,
the updated cache and the advanced id counter. -/
def retrieveEvidence (fetch : String → List RetrievalResult) (source : String)
    (queries : List String) (cache : Cache) (now : Nat) (today : String)
    (ctr : Nat) : List Evidence × Cache × Nat :=
  match queries with
  | [] => ([], cache, ctr)
  | query :: rest =>
      match getCachedResults cache now query source with
      | (some cached, cache1) =>
          let (evs, ctr1) := materialize cached source today ctr
          let (evsRest, cache2, ctr2) :=
            retrieveEvidence fetch source rest cache1 now today ctr1
          (evs ++ evsRest, cache2, ctr2)
      | (none, cache1) =>
          let results := fetch query
          let cache2 := cacheResults cache1 now query source results
          let (evs, ctr1) := materialize results source today ctr
          let (evsRest, cache3, ctr2) :=
            retrieveEvidence fetch source rest cache2 now today ctr1
          (evs ++ evsRest, cache3, ctr2)

/-- Embedding of `retrieveGuichetEvidence` (src/server/retrieval/index.ts). -/
def retrieveGuichetEvidence (queries : List String) (language : String)
    (cache : Cache) (now : Nat) (today : String) (ctr : Nat) :
    List Evidence × Cache × Nat :=
  retrieveEvidence (fun query => getMockGuichetResults query language today)
    "guichet" queries cache now today ctr

/-- Embedding of `retrieveLegalEvidence` (src/server/retrieval/index.ts). -/
def retrieveLegalEvidence (queries : List String) (language : String)
    (cache : Cache) (now : Nat) (today : String) (ctr : Nat) :
    List Evidence × Cache × Nat :=
  retrieveEvidence (fun query => getMockLegalResults query language today)
    "legal" queries cache now today ctr

/-- The same per-query loop as `retrieveEvidence`, for a per-query fetch that
can throw (`Except.error`). The loop body in the source has no try/catch, so
a thrown fetch error propagates out of the whole call; this definition makes
that propagation explicit for reasoning about the spec's failure policy. -/
def retrieveEvidenceE (fetch : String → Except Unit (List RetrievalResult))
    (source : String) (queries : List String) (cache : Cache) (now : Nat)
    (today : String) (ctr : Nat) : Except Unit (List Evidence × Cache × Nat) :=
  match queries with
  | [] => Except.ok ([], cache, ctr)
  | query :: rest =>
      match getCachedResults cache now query source with
      | (some cached, cache1) =>
          let (evs, ctr1) := materialize cached source today ctr
          match retrieveEvidenceE fetch source rest cache1 now today ctr1 with
          | Except.error e => Except.error e
          | Except.ok (evsRest, cache2, ctr2) => Except.ok (evs ++ evsRest, cache2, ctr2)
      | (none, cache1) =>
          match fetch query with
          | Except.error e => Except.error e
          | Except.ok results =>
              let cache2 := cacheResults cache1 now query source results
              let (evs, ctr1) := materialize results source today ctr
              match retrieveEvidenceE fetch source rest cache2 now today ctr1 with
              | Except.error e => Except.error e
              | Except.ok (evsRest, cache3, ctr2) => Except.ok (evs ++ evsRest, cache3, ctr2)

/-- Modelled from the spec: the underlying production per-query fetch, which
the spec's failure policy describes as able to throw ("if the underlying
fetch throws"); the repository only contains the mock fetches, which never
throw. This concrete instance throws on one query and succeeds on others. -/
def flakyFetch : String → Except Unit (List RetrievalResult) := fun query =>
  if query = "bad query" then Except.error ()
  else Except.ok (getMockGuichetResults query "en" "2025-01-01")

/-- Domain allowlist from src/server/retrieval/index.ts. -/
def DOMAIN_ALLOWLIST_guichet : List String := ["guichet.public.lu"]

/-- Domain allowlist from src/server/retrieval/index.ts. -/
def DOMAIN_ALLOWLIST_legal : List String := ["legilux.public.lu", "mt.gouvernement.lu"]

/-- Embedding of `validateEvidenceDomains` (src/server/retrieval/index.ts). -/
def validateEvidenceDomains (evidence : List Evidence) : Bool :=
  evidence.all (fun e =>
    (e.source == "guichet" && DOMAIN_ALLOWLIST_guichet.any (fun d => strIncludes e.url d))
    || (e.source == "legal" && DOMAIN_ALLOWLIST_legal.any (fun d => strIncludes e.url d)))

/-- Result record of `synthesizeResponses` (src/unnamed/part_004). -/
structure SynthResult where
  answer : String
  steps : List String
  confidence : String
  limitations : List String
  suggested_searches : List String
deriving Repr, DecidableEq

/-- The fixed zero-answers result of `synthesizeResponses`. -/
def synthZero : SynthResult :=
  { answer := "Unable to find relevant information to answer your question."
    steps := []
    confidence := "low"
    limitations :=
      ["No evidence found in available sources.",
       "Please rephrase your question or contact support."]
    suggested_searches := [] }

/-- Embedding of `synthesizeResponses` (src/unnamed/part_004): zero answers
give the fixed "no information found" result; a single answer passes through
unchanged without a completion call; two or more answers are merged by the
completion service (`llm`), whose thrown/unparseable outcome (`none`) falls
back to naive concatenation with confidence "medium". -/
def synthesizeResponses (llm : Option AgentParsed) (question language : String)
    (agentResponses : List AgentResponse) : SynthResult :=
  match agentResponses with
  | [] => synthZero
  | [response] =>
      { answer := response.answer
        steps := response.steps
        confidence := response.confidence
        limitations := response.limitations
        suggested_searches := response.suggested_searches }
  | response0 :: _ :: _ =>
      match llm with
      | some parsed =>
          { answer := jsOrStr parsed.answer response0.answer
            steps := jsOrArr parsed.steps (agentResponses.flatMap (fun r => r.steps))
            confidence := jsOrStr parsed.confidence "medium"
            limitations := jsOrArr parsed.limitations
              (agentResponses.flatMap (fun r => r.limitations))
            suggested_searches := jsOrArr parsed.suggested_searches
              (agentResponses.flatMap (fun r => r.suggested_searches)) }
      | none =>
          { answer := String.intercalate "\n\n" (agentResponses.map (fun r => r.answer))
            steps := agentResponses.flatMap (fun r => r.steps)
            confidence := "medium"
            limitations := agentResponses.flatMap (fun r => r.limitations)
            suggested_searches := agentResponses.flatMap (fun r => r.suggested_searches) }

/-- Embedding of `validateResponse` (src/unnamed/part_004): the source checks
that the seven required fields are present on the object; on the typed record
of the embedding they always are. -/
def validateResponse (response : ChatResponse) : Bool := true

/-- The JavaScript Map key of `buildCitations`
(src/server/procedures/chat-independent.ts): the template string
`url + "|" + section`. -/
def citeKey (e : Evidence) : String := e.url ++ "|" ++ e.«section»

/-- The Map key under which a citation built by `buildCitations` is stored:
its own url and section, which come from the first evidence of its group. -/
def keyOfCitation (c : Citation) : String := c.url ++ "|" ++ c.«section»

/-- Citation created by `buildCitations` for the first evidence of a group. -/
def newCitation (e : Evidence) : Citation :=
  { title := e.title
    url := e.url
    «section» := e.«section»
    retrieved_at := e.retrieved_at
    evidence_ids := [e.evidence_id] }

/-- The `evidence_ids.push` performed by `buildCitations` on a key hit. -/
def appendId (c : Citation) (e : Evidence) : Citation :=
  { c with evidence_ids := c.evidence_ids ++ [e.evidence_id] }

/-- One step of the `buildCitations` loop: JavaScript `Map` insertion order is
modelled by the list order, so a key hit updates the existing citation in
place and a new key appends a citation at the end. -/
def addToGroup (cs : List Citation) (e : Evidence) : List Citation :=
  match cs with
  | [] => [newCitation e]
  | c :: rest =>
      if keyOfCitation c = citeKey e then appendId c e :: rest
      else c :: addToGroup rest e

/-- Embedding of `buildCitations` (src/server/procedures/chat-independent.ts):
fold the evidence list through the Map-building loop and return the citations
in Map (first-seen) order. -/
def buildCitations (evidence : List Evidence) : List Citation :=
  evidence.foldl addToGroup []

/-- Embedding of `buildErrorResponse`
(src/server/procedures/chat-independent.ts). -/
def buildErrorResponse (question : String) (language : Option String) : ChatResponse :=
  { language := jsOrStr language "en"
    answer := "I was unable to process your question. Please try rephrasing or contact support."
    steps := []
    citations := []
    confidence := "low"
    limitations :=
      ["An error occurred while processing your question.",
       "Please try again or contact support."]
    suggested_searches := []
    evidence := [] }

/-- The completion-service outcomes consumed by one `processQuestion` run:
one planner call, at most one call per specialist agent, and at most one
synthesizer call. -/
structure LlmOutcomes where
  planner : Option PlannerParsed
  guichet : Option AgentParsed
  legal : Option AgentParsed
  synth : Option AgentParsed
deriving Repr, DecidableEq

/-- Step 1 of `processQuestion`: the orchestrator plan. -/
def planOf (llm : LlmOutcomes) (question : String)
    (hist : List (String × String)) : OrchestratorPlan :=
  planRequest llm.planner question hist

/-- Step 2 of `processQuestion` (src/server/procedures/chat-independent.ts):
guichet evidence is retrieved only when the plan lists "guichet" and has at
least one retrieval query; otherwise the evidence list is empty and the cache
and counter are untouched. -/
def guichetEvidenceOf (llm : LlmOutcomes) (question : String)
    (hist : List (String × String)) (cache : Cache) (now : Nat) (today : String)
    (ctr : Nat) : List Evidence × Cache × Nat :=
  let plan := planOf llm question hist
  if "guichet" ∈ plan.agents_to_call ∧ 0 < plan.retrieval_queries.length then
    retrieveGuichetEvidence plan.retrieval_queries plan.language cache now today ctr
  else ([], cache, ctr)

/-- Step 2 of `processQuestion`, legal half; it runs after the guichet
retrieval, so it sees that retrieval's cache and counter. -/
def legalEvidenceOf (llm : LlmOutcomes) (question : String)
    (hist : List (String × String)) (cache : Cache) (now : Nat) (today : String)
    (ctr : Nat) : List Evidence × Cache × Nat :=
  let plan := planOf llm question hist
  let (_, cache1, ctr1) := guichetEvidenceOf llm question hist cache now today ctr
  if "legal" ∈ plan.agents_to_call ∧ 0 < plan.retrieval_queries.length then
    retrieveLegalEvidence plan.retrieval_queries plan.language cache1 now today ctr1
  else ([], cache1, ctr1)

/-- Step 3 of `processQuestion`: each specialist agent is called exactly when
it is listed in the plan's `agents_to_call` and its retrieved evidence list
is non-empty, and the responses are pushed in guichet-then-legal order. -/
def agentResponsesOf (llm : LlmOutcomes) (question : String)
    (hist : List (String × String)) (cache : Cache) (now : Nat) (today : String)
    (ctr : Nat) : List AgentResponse :=
  let plan := planOf llm question hist
  let guichetEvidence := (guichetEvidenceOf llm question hist cache now today ctr).1
  let legalEvidence := (legalEvidenceOf llm question hist cache now today ctr).1
  (if "guichet" ∈ plan.agents_to_call ∧ guichetEvidence ≠ [] then
    [processGuichetQuery llm.guichet question plan.language guichetEvidence]
  else [])
  ++ (if "legal" ∈ plan.agents_to_call ∧ legalEvidence ≠ [] then
    [processLegalQuery llm.legal question plan.language legalEvidence]
  else [])

/-- Embedding of `processQuestion`
(src/server/procedures/chat-independent.ts), assembled from the step
definitions above. All awaited callees of the source handle their own errors
(the planner, agents and synthesizer catch internally, and the in-repository
fetches are total), so the surrounding try/catch's error path
(`buildErrorResponse`) is unreachable and the embedding is a total function
returning the success-path response. -/
def processQuestion (llm : LlmOutcomes) (question : String)
    (language : Option String) (hist : List (String × String)) (cache : Cache)
    (now : Nat) (today : String) (ctr : Nat) : ChatResponse :=
  let plan := planOf llm question hist
  let guichetEvidence := (guichetEvidenceOf llm question hist cache now today ctr).1
  let legalEvidence := (legalEvidenceOf llm question hist cache now today ctr).1
  let synthesized := synthesizeResponses llm.synth question plan.language
    (agentResponsesOf llm question hist cache now today ctr)
  let allEvidence := guichetEvidence ++ legalEvidence
  let conflicts := detectConflicts legalEvidence
  { language := plan.language
    answer := synthesized.answer
    steps := synthesized.steps
    citations := buildCitations allEvidence
    confidence := synthesized.confidence
    limitations :=
      if 0 < conflicts.length then synthesized.limitations ++ conflicts
      else synthesized.limitations
    suggested_searches := synthesized.suggested_searches
    evidence := allEvidence }

/-- Content quadruple of an evidence item or raw result: the fields the
spec's idempotence property compares across calls (ids and dates excluded). -/
structure SourceDoc where
  url : String
  title : String
  «section» : String
  snippet : String
deriving Repr, DecidableEq

/-- Content of a raw retrieval result. -/
def rrContent (r : RetrievalResult) : SourceDoc :=
  ⟨r.url, r.title, r.«section», r.snippet⟩

/-- Content of a materialized evidence item. -/
def evContent (e : Evidence) : SourceDoc :=
  ⟨e.url, e.title, e.«section», e.snippet⟩

/-- Content of the stubbed guichet fetch, constant across queries. -/
def guichetMockContent : List SourceDoc :=
  (getMockGuichetResults "" "" "").map rrContent

/-- Content of the stubbed legal fetch, constant across queries. -/
def legalMockContent : List SourceDoc :=
  (getMockLegalResults "" "" "").map rrContent

/-- A cache state is well formed for a fetch of constant content `C` when
every stored entry has that content. The empty initial cache is well formed,
and (as proved below) every cache produced from a well-formed one by the
retrieval loop is again well formed, so this invariant holds of every cache
state the repository's adapter can reach. -/
def WellFormedCache (C : List SourceDoc) (cache : Cache) : Prop :=
  ∀ p ∈ cache, p.2.results.map rrContent = C

/-- Distinct keys of a key list in first-seen order: the iteration order of
the JavaScript Map built by `buildCitations`. `seen` accumulates the keys
already emitted. -/
def firstSeenAux (seen : List String) : List String → List String
  | [] => []
  | k :: rest =>
      if k ∈ seen then firstSeenAux seen rest
      else k :: firstSeenAux (k :: seen) rest

/-- The group of evidence items bearing a given citation key, in input order. -/
def groupFor (evidence : List Evidence) (k : String) : List Evidence :=
  evidence.filter (fun e => citeKey e == k)

/-- The citation described by the spec for one non-empty group: title, url,
section and date from the group's first item, and the ids of all its items in
input order. (The empty-group value is never used.) -/
def citationOfGroup (g : List Evidence) : Citation :=
  match g with
  | [] => ⟨"", "", "", "", []⟩
  | e :: rest =>
      ⟨e.title, e.url, e.«section», e.retrieved_at,
       (e :: rest).map (fun e2 => e2.evidence_id)⟩

/-- Specification-side description of citation building, written from the
spec's words: one citation per distinct key in first-seen order, each
collecting all evidence ids sharing that key in input order. -/
def specCitations (evidence : List Evidence) : List Citation :=
  (firstSeenAux [] (evidence.map citeKey)).map
    (fun k => citationOfGroup (groupFor evidence k))

/-! Helper lemmas about the string primitives. -/

theorem isPrefixOf_eq_true_iff :
    ∀ (l1 l2 : List Char), l1.isPrefixOf l2 = true ↔ ∃ t, l2 = l1 ++ t := by
  intro l1
  induction l1 with
  | nil =>
      intro l2
      simp [List.isPrefixOf]
  | cons a as ih =>
      intro l2
      cases l2 with
      | nil => simp [List.isPrefixOf]
      | cons b bs =>
          simp only [List.isPrefixOf, Bool.and_eq_true, beq_iff_eq, ih bs]
          constructor
          · rintro ⟨rfl, t, rfl⟩
            exact ⟨t, rfl⟩
          · rintro ⟨t, ht⟩
            injection ht with h1 h2
            exact ⟨h1.symm, t, h2⟩

theorem hasSubChars_eq_true_iff (pat : List Char) :
    ∀ hay : List Char, hasSubChars pat hay = true ↔ ∃ s t, hay = s ++ pat ++ t := by
  intro hay
  induction hay with
  | nil =>
      simp only [hasSubChars, List.isEmpty_iff]
      constructor
      · rintro rfl
        exact ⟨[], [], rfl⟩
      · rintro ⟨s, t, ht⟩
        have := List.append_eq_nil.mp ht.symm
        have := List.append_eq_nil.mp this.1
        exact this.2
  | cons c rest ih =>
      simp only [hasSubChars, Bool.or_eq_true, isPrefixOf_eq_true_iff, ih]
      constructor
      · rintro (⟨t, ht⟩ | ⟨s, t, ht⟩)
        · exact ⟨[], t, by simpa using ht⟩
        · exact ⟨c :: s, t, by simp [ht]⟩
      · rintro ⟨s, t, ht⟩
        cases s with
        | nil => exact Or.inl ⟨t, by simpa using ht⟩
        | cons s0 s1 =>
            injection ht with h1 h2
            exact Or.inr ⟨s1, t, by simp [h2]⟩

theorem hasSubChars_map (f : Char → Char) (pat hay : List Char)
    (h : hasSubChars pat hay = true) :
    hasSubChars (pat.map f) (hay.map f) = true := by
  rw [hasSubChars_eq_true_iff] at h ⊢
  obtain ⟨s, t, rfl⟩ := h
  exact ⟨s.map f, t.map f, by simp⟩

/-- A pattern that is invariant under lowercasing is found in the lowercased
haystack whenever it is found in the original haystack (a lowercase-invariant
`needle` matching `hay` also matches `hay.toLowerCase()`). -/
theorem strIncludes_strToLower (s w : String)
    (hw : w.toList.map Char.toLower = w.toList)
    (h : strIncludes s w = true) : strIncludes (strToLower s) w = true := by
  show hasSubChars w.toList (s.toList.map Char.toLower) = true
  rw [← hw]
  exact hasSubChars_map Char.toLower _ _ h

/-! Claim theorems for the planner and the legal responder. -/

/-- C3: for every question, language and evidence list, and every outcome of
the completion service (well-formed JSON, JSON lacking the disclaimer,
malformed output, or a thrown call — the latter two are `llm = none`), the
`AgentResponse` returned by `processLegalQuery` contains at least one
limitation that, compared case-insensitively, contains "legal advice". -/
theorem c3_legal_disclaimer_present (llm : Option AgentParsed)
    (question language : String) (evidence : List Evidence) :
    ∃ l ∈ (processLegalQuery llm question language evidence).limitations,
      strIncludes (strToLower l) "legal advice" = true := by
  cases llm with
  | none =>
      refine ⟨"This is not legal advice. Consult a qualified lawyer.", ?_, by decide⟩
      simp [processLegalQuery]
  | some parsed =>
      by_cases h : (jsOrArr parsed.limitations []).any
          (fun l => strIncludes (strToLower l) "legal advice")
      · obtain ⟨l, hl, hp⟩ := List.any_eq_true.mp h
        exact ⟨l, by simpa [processLegalQuery, h] using hl, hp⟩
      · refine ⟨legalDisclaimer, ?_, by decide⟩
        simp [processLegalQuery, h]

/-- C4: on a thrown completion call or unparseable completion output
(`llm = none`), `planRequest` does not raise (it is a total function) and
returns the deterministic fallback plan: language "en", intent "mixed",
confidence 0.5, retrieval queries `[question]`, and both responders. -/
theorem c4_planner_fallback (question : String)
    (conversationHistory : List (String × String)) :
    planRequest none question conversationHistory =
      { language := "en"
        intent := "mixed"
        confidence := 1/2
        reasoning := "Fallback plan due to processing error"
        retrieval_queries := [question]
        agents_to_call := ["guichet", "legal"] } := rfl

/-- C5, counterexample: a parseable completion output whose `agents_to_call`
field is the empty list yields a plan whose `agents_to_call` is `[]`, not the
claimed default `["guichet", "legal"]` (a JavaScript `[] || d` keeps `[]`,
because every array is truthy); so a returned plan can have an empty
`agents_to_call`. -/
theorem c5_empty_agents_counterexample :
    (planRequest (some ⟨none, none, none, none, none, some []⟩) "q" []).agents_to_call = []
    ∧ (planRequest (some ⟨none, none, none, none, none, some []⟩) "q" []).agents_to_call
        ≠ ["guichet", "legal"] := by
  exact ⟨rfl, by decide⟩

/-- C5, amended: on parseable completion output, the returned plan's
`agents_to_call` is the parsed field when that field is present — even when
it is the empty list — and defaults to both responders only when the field is
omitted (or null); consequently a plan's `agents_to_call` can be empty. -/
theorem c5_agents_to_call_default (parsed : PlannerParsed) (question : String)
    (conversationHistory : List (String × String)) :
    (planRequest (some parsed) question conversationHistory).agents_to_call
      = parsed.agents_to_call.getD ["guichet", "legal"] := by
  cases h : parsed.agents_to_call <;> simp [planRequest, jsOrArr, h]

/-! Conflict detection (C6). -/

/-- Both members of every fixed contradiction pair are lowercase-invariant
strings. -/
theorem contradictionPairs_lower (w1 w2 : String)
    (hpair : (w1, w2) ∈ contradictionPairs) :
    w1.toList.map Char.toLower = w1.toList ∧ w2.toList.map Char.toLower = w2.toList := by
  fin_cases hpair <;> exact ⟨by decide, by decide⟩

/-- Core of C6: on an evidence list of more than one item, if one member of a
contradiction pair occurs in some snippet and the other member occurs in some
snippet, `detectConflicts` emits the warning naming that pair. -/
theorem conflict_detected (evidence : List Evidence) (w1 w2 : String)
    (hpair : (w1, w2) ∈ contradictionPairs)
    (hlen : 2 ≤ evidence.length)
    (h1 : ∃ e ∈ evidence, strIncludes e.snippet w1 = true)
    (h2 : ∃ e ∈ evidence, strIncludes e.snippet w2 = true) :
    conflictWarning w1 w2 ∈ detectConflicts evidence := by
  obtain ⟨hw1, hw2⟩ := contradictionPairs_lower w1 w2 hpair
  unfold detectConflicts
  rw [if_pos (by omega)]
  refine List.mem_filterMap.mpr ⟨(w1, w2), hpair, ?_⟩
  obtain ⟨e1, he1, hs1⟩ := h1
  obtain ⟨e2, he2, hs2⟩ := h2
  have ha1 : (evidence.map (fun e => strToLower e.snippet)).any
      (fun s => strIncludes s w1) = true :=
    List.any_eq_true.mpr ⟨strToLower e1.snippet, List.mem_map_of_mem _ he1,
      strIncludes_strToLower _ _ hw1 hs1⟩
  have ha2 : (evidence.map (fun e => strToLower e.snippet)).any
      (fun s => strIncludes s w2) = true :=
    List.any_eq_true.mpr ⟨strToLower e2.snippet, List.mem_map_of_mem _ he2,
      strIncludes_strToLower _ _ hw2 hs2⟩
  simp only [ha1, ha2, Bool.and_self, if_pos]

/-- C6, counterexample: a single-element evidence list whose snippet contains
both "must" and "must not" satisfies the claim's premise (some snippet
contains one member of the pair and some snippet contains the other), yet
`detectConflicts` returns no warning at all, because the source only scans
lists with more than one evidence item. -/
theorem c6_single_evidence_counterexample :
    strIncludes
        (Evidence.snippet ⟨"id1", "u", "t", "s", "Employees must not smoke", "legal", "d"⟩)
        "must" = true
    ∧ strIncludes
        (Evidence.snippet ⟨"id1", "u", "t", "s", "Employees must not smoke", "legal", "d"⟩)
        "must not" = true
    ∧ detectConflicts [⟨"id1", "u", "t", "s", "Employees must not smoke", "legal", "d"⟩]
        = [] := by
  exact ⟨by decide, by decide, rfl⟩

/-- C6, amended (the counterexample forces the premise "the evidence list has
at least two elements"): for every contradiction pair, (1) on an evidence
list with at least two elements in which some snippet contains one member
and some snippet contains the other, `detectConflicts` returns the warning
string naming both keywords of the pair (and that warning does contain both
keywords), and (2) `processQuestion` appends each such warning produced on
its retrieved legal evidence to the returned response's limitations. -/
theorem c6_conflict_warning (w1 w2 : String)
    (hpair : (w1, w2) ∈ contradictionPairs) :
    (strIncludes (conflictWarning w1 w2) w1 = true
      ∧ strIncludes (conflictWarning w1 w2) w2 = true)
    ∧ (∀ evidence : List Evidence, 2 ≤ evidence.length →
        (∃ e ∈ evidence, strIncludes e.snippet w1 = true) →
        (∃ e ∈ evidence, strIncludes e.snippet w2 = true) →
        conflictWarning w1 w2 ∈ detectConflicts evidence)
    ∧ (∀ (llm : LlmOutcomes) (question : String) (language : Option String)
        (hist : List (String × String)) (cache : Cache) (now : Nat)
        (today : String) (ctr : Nat),
        2 ≤ (legalEvidenceOf llm question hist cache now today ctr).1.length →
        (∃ e ∈ (legalEvidenceOf llm question hist cache now today ctr).1,
          strIncludes e.snippet w1 = true) →
        (∃ e ∈ (legalEvidenceOf llm question hist cache now today ctr).1,
          strIncludes e.snippet w2 = true) →
        conflictWarning w1 w2 ∈
          (processQuestion llm question language hist cache now today ctr).limitations) := by
  refine ⟨by fin_cases hpair <;> exact ⟨by decide, by decide⟩, ?_, ?_⟩
  · intro evidence hlen h1 h2
    exact conflict_detected evidence w1 w2 hpair hlen h1 h2
  · intro llm question language hist cache now today ctr hlen h1 h2
    have hmem := conflict_detected _ w1 w2 hpair hlen h1 h2
    have hpos : 0 < (detectConflicts
        (legalEvidenceOf llm question hist cache now today ctr).1).length :=
      List.length_pos.mpr (List.ne_nil_of_mem hmem)
    simp only [processQuestion]
    rw [if_pos hpos]
    exact List.mem_append_right _ hmem

/-- Witness for C6: two legal evidence items whose snippets contain "must"
and "must not" trigger the warning, both directly in `detectConflicts` and in
the limitations of a full `processQuestion` run whose legal retrieval serves
those snippets from the cache. -/
theorem c6_conflict_warning_witness :
    conflictWarning "must" "must not" ∈ detectConflicts
      [⟨"id1", "u1", "t1", "s1", "employers must pay wages", "legal", "d"⟩,
       ⟨"id2", "u2", "t2", "s2", "employers must not pay late", "legal", "d"⟩]
    ∧ conflictWarning "must" "must not" ∈
        (processQuestion
          ⟨some ⟨none, none, none, none, some ["q1"], some ["legal"]⟩, none, none, none⟩
          "q" none []
          [("legal:q1",
            ⟨[⟨"u1", "t1", "s1", "employers must pay wages", "legal", "2025-01-01"⟩,
              ⟨"u2", "t2", "s2", "employers must not pay late", "legal", "2025-01-01"⟩], 0⟩)]
          0 "2025-01-01" 0).limitations := by
  refine ⟨(c6_conflict_warning "must" "must not" (by decide)).2.1 _
      (by decide) (by decide) (by decide),
    (c6_conflict_warning "must" "must not" (by decide)).2.2 _ "q" none [] _ 0 "2025-01-01" 0
      (by decide) (by decide) (by decide)⟩

/-! Referential integrity of citations (C1). -/

/-- Every id inside the citation list after one `addToGroup` step was already
present or is the id of the added evidence. -/
theorem mem_ids_addToGroup :
    ∀ (cs : List Citation) (e : Evidence) (c : Citation) (i : String),
      c ∈ addToGroup cs e → i ∈ c.evidence_ids →
      (∃ c2 ∈ cs, i ∈ c2.evidence_ids) ∨ i = e.evidence_id := by
  intro cs
  induction cs with
  | nil =>
      intro e c i hc hi
      simp only [addToGroup, List.mem_singleton] at hc
      subst hc
      simp only [newCitation, List.mem_singleton] at hi
      exact Or.inr hi
  | cons c0 rest ih =>
      intro e c i hc hi
      simp only [addToGroup] at hc
      by_cases hkey : keyOfCitation c0 = citeKey e
      · rw [if_pos hkey] at hc
        rcases List.mem_cons.mp hc with rfl | hmem
        · simp only [appendId, List.mem_append, List.mem_singleton] at hi
          rcases hi with hi | hi
          · exact Or.inl ⟨c0, List.mem_cons_self c0 rest, hi⟩
          · exact Or.inr hi
        · exact Or.inl ⟨c, List.mem_cons_of_mem c0 hmem, hi⟩
      · rw [if_neg hkey] at hc
        rcases List.mem_cons.mp hc with rfl | hmem
        · exact Or.inl ⟨c, List.mem_cons_self c rest, hi⟩
        · rcases ih e c i hmem hi with ⟨c2, hc2, hi2⟩ | hi2
          · exact Or.inl ⟨c2, List.mem_cons_of_mem c0 hc2, hi2⟩
          · exact Or.inr hi2

/-- Every id inside the folded citation list came from the accumulator or
from the processed evidence. -/
theorem mem_ids_foldl_addToGroup :
    ∀ (l : List Evidence) (acc : List Citation) (c : Citation) (i : String),
      c ∈ l.foldl addToGroup acc → i ∈ c.evidence_ids →
      (∃ c2 ∈ acc, i ∈ c2.evidence_ids) ∨ i ∈ l.map (fun e => e.evidence_id) := by
  intro l
  induction l with
  | nil =>
      intro acc c i hc hi
      exact Or.inl ⟨c, hc, hi⟩
  | cons e rest ih =>
      intro acc c i hc hi
      simp only [List.foldl_cons] at hc
      rcases ih (addToGroup acc e) c i hc hi with ⟨c2, hc2, hi2⟩ | hmem
      · rcases mem_ids_addToGroup acc e c2 i hc2 hi2 with ⟨c3, hc3, hi3⟩ | hid
        · exact Or.inl ⟨c3, hc3, hi3⟩
        · exact Or.inr (by simp [hid])
      · exact Or.inr (List.mem_cons_of_mem _ hmem)

/-- Every id carried by a citation built from an evidence list is the id of
one of its items. -/
theorem buildCitations_ids (l : List Evidence) (c : Citation) (i : String)
    (hc : c ∈ buildCitations l) (hi : i ∈ c.evidence_ids) :
    ∃ e ∈ l, e.evidence_id = i := by
  rcases mem_ids_foldl_addToGroup l [] c i hc hi with ⟨c2, hc2, _⟩ | hmem
  · exact absurd hc2 (List.not_mem_nil c2)
  · obtain ⟨e, he, hei⟩ := List.mem_map.mp hmem
    exact ⟨e, he, hei⟩

/-- C1: in every response returned by `processQuestion`, every evidence id
listed in the `evidence_ids` of any citation also occurs as the
`evidence_id` of some element of the response's evidence list. -/
theorem c1_citation_ids_in_evidence (llm : LlmOutcomes) (question : String)
    (language : Option String) (hist : List (String × String)) (cache : Cache)
    (now : Nat) (today : String) (ctr : Nat) :
    ∀ c ∈ (processQuestion llm question language hist cache now today ctr).citations,
      ∀ i ∈ c.evidence_ids,
        ∃ e ∈ (processQuestion llm question language hist cache now today ctr).evidence,
          e.evidence_id = i := by
  intro c hc i hi
  simp only [processQuestion] at hc ⊢
  exact buildCitations_ids _ c i hc hi

/-- Witness for C1 on a concrete run: the first citation of the all-fallback
run references id "ev_0", which belongs to the returned evidence. -/
theorem c1_citation_ids_in_evidence_witness :
    ∃ e ∈ (processQuestion ⟨none, none, none, none⟩ "q" none [] [] 0 "2025-01-01" 0).evidence,
      e.evidence_id = "ev_0" :=
  c1_citation_ids_in_evidence ⟨none, none, none, none⟩ "q" none [] [] 0 "2025-01-01" 0
    ⟨"Employment Contract",
     "https://guichet.public.lu/en/citoyens/emploi-travail/contrat-travail",
     "Rights and Obligations", "2025-01-01", ["ev_0"]⟩
    (by decide) "ev_0" (by decide)

/-! Empty evidence forces low confidence (C2). -/

/-- With no guichet and no legal evidence, no specialist agent is invoked. -/
theorem agentResponsesOf_nil (llm : LlmOutcomes) (question : String)
    (hist : List (String × String)) (cache : Cache) (now : Nat) (today : String)
    (ctr : Nat)
    (hG : (guichetEvidenceOf llm question hist cache now today ctr).1 = [])
    (hL : (legalEvidenceOf llm question hist cache now today ctr).1 = []) :
    agentResponsesOf llm question hist cache now today ctr = [] := by
  simp [agentResponsesOf, hG, hL]

/-- C2: whenever the response returned by `processQuestion` has an empty
evidence list, its confidence is "low"; and the error-path response
(`buildErrorResponse`, returned by the catch of `processQuestion`) always has
empty evidence and confidence "low". -/
theorem c2_empty_evidence_low_confidence (llm : LlmOutcomes) (question : String)
    (language : Option String) (hist : List (String × String)) (cache : Cache)
    (now : Nat) (today : String) (ctr : Nat) :
    ((processQuestion llm question language hist cache now today ctr).evidence = [] →
      (processQuestion llm question language hist cache now today ctr).confidence = "low")
    ∧ ∀ (q : String) (lang : Option String),
        (buildErrorResponse q lang).evidence = []
        ∧ (buildErrorResponse q lang).confidence = "low" := by
  constructor
  · intro h
    simp only [processQuestion] at h ⊢
    have hGL := List.append_eq_nil.mp h
    rw [agentResponsesOf_nil llm question hist cache now today ctr hGL.1 hGL.2]
    simp [synthesizeResponses, synthZero]
  · intro q lang
    exact ⟨rfl, rfl⟩

/-- Witness for C2: a planner output with an empty retrieval-query list leads
to a run with no evidence, whose response has confidence "low"; the error
response also has confidence "low". -/
theorem c2_empty_evidence_low_confidence_witness :
    (processQuestion ⟨some ⟨none, none, none, none, some [], none⟩, none, none, none⟩
      "q" none [] [] 0 "2025-01-01" 0).confidence = "low"
    ∧ (buildErrorResponse "q" none).confidence = "low" :=
  ⟨(c2_empty_evidence_low_confidence
      ⟨some ⟨none, none, none, none, some [], none⟩, none, none, none⟩
      "q" none [] [] 0 "2025-01-01" 0).1 (by decide),
   ((c2_empty_evidence_low_confidence
      ⟨some ⟨none, none, none, none, some [], none⟩, none, none, none⟩
      "q" none [] [] 0 "2025-01-01" 0).2 "q" none).2⟩

/-! Specialist invocation discipline (C10). -/

/-- The guichet responder always tags its answer with agent "guichet". -/
theorem processGuichetQuery_agent (llm : Option AgentParsed)
    (question language : String) (evidence : List Evidence) :
    (processGuichetQuery llm question language evidence).agent = "guichet" := by
  cases llm <;> rfl

/-- The legal responder always tags its answer with agent "legal". -/
theorem processLegalQuery_agent (llm : Option AgentParsed)
    (question language : String) (evidence : List Evidence) :
    (processLegalQuery llm question language evidence).agent = "legal" := by
  cases llm <;> rfl

/-- The guichet responder passes its evidence through unchanged. -/
theorem processGuichetQuery_evidence (llm : Option AgentParsed)
    (question language : String) (evidence : List Evidence) :
    (processGuichetQuery llm question language evidence).evidence = evidence := by
  cases llm <;> rfl

/-- The legal responder passes its evidence through unchanged. -/
theorem processLegalQuery_evidence (llm : Option AgentParsed)
    (question language : String) (evidence : List Evidence) :
    (processLegalQuery llm question language evidence).evidence = evidence := by
  cases llm <;> rfl

/-- C10: `processQuestion` invokes a specialist responder (its answer appears
among the agent responses) exactly when that specialist is listed in the
plan's `agents_to_call` and its retrieved evidence list is non-empty; every
invoked responder therefore carries a non-empty evidence list, and with zero
total evidence the synthesizer's zero-answers branch produces the result. -/
theorem c10_specialist_invocation (llm : LlmOutcomes) (question : String)
    (hist : List (String × String)) (cache : Cache) (now : Nat) (today : String)
    (ctr : Nat) :
    ((∃ r ∈ agentResponsesOf llm question hist cache now today ctr,
        r.agent = "guichet")
      ↔ "guichet" ∈ (planOf llm question hist).agents_to_call
        ∧ (guichetEvidenceOf llm question hist cache now today ctr).1 ≠ [])
    ∧ ((∃ r ∈ agentResponsesOf llm question hist cache now today ctr,
        r.agent = "legal")
      ↔ "legal" ∈ (planOf llm question hist).agents_to_call
        ∧ (legalEvidenceOf llm question hist cache now today ctr).1 ≠ [])
    ∧ (∀ r ∈ agentResponsesOf llm question hist cache now today ctr, r.evidence ≠ [])
    ∧ ((guichetEvidenceOf llm question hist cache now today ctr).1 = [] →
        (legalEvidenceOf llm question hist cache now today ctr).1 = [] →
        synthesizeResponses llm.synth question (planOf llm question hist).language
          (agentResponsesOf llm question hist cache now today ctr) = synthZero) := by
  refine ⟨?_, ?_, ?_, ?_⟩
  · simp only [agentResponsesOf]
    split_ifs with h1 h2 h2 <;>
      simp [processGuichetQuery_agent, processLegalQuery_agent, h1]
  · simp only [agentResponsesOf]
    split_ifs with h1 h2 h2 <;>
      simp [processGuichetQuery_agent, processLegalQuery_agent, h2]
  · simp only [agentResponsesOf]
    split_ifs with h1 h2 h2 <;>
      simp [processGuichetQuery_evidence, processLegalQuery_evidence] <;>
      first
        | exact ⟨h1.2, h2.2⟩
        | exact h1.2
        | exact h2.2
  · intro hG hL
    rw [agentResponsesOf_nil llm question hist cache now today ctr hG hL]
    rfl

/-- Witness for C10: in the all-fallback run both specialists are invoked
(the guichet one exhibited here), and in a run whose plan has no retrieval
queries the synthesizer receives zero answers and returns its fixed result. -/
theorem c10_specialist_invocation_witness :
    (∃ r ∈ agentResponsesOf ⟨none, none, none, none⟩ "q" [] [] 0 "2025-01-01" 0,
      r.agent = "guichet")
    ∧ synthesizeResponses none "q"
        (planOf ⟨some ⟨none, none, none, none, some [], none⟩, none, none, none⟩ "q" []).language
        (agentResponsesOf ⟨some ⟨none, none, none, none, some [], none⟩, none, none, none⟩
          "q" [] [] 0 "2025-01-01" 0) = synthZero :=
  ⟨(c10_specialist_invocation ⟨none, none, none, none⟩ "q" [] [] 0 "2025-01-01" 0).1.mpr
      ⟨by decide, by decide⟩,
   (c10_specialist_invocation
      ⟨some ⟨none, none, none, none, some [], none⟩, none, none, none⟩
      "q" [] [] 0 "2025-01-01" 0).2.2.2 (by decide) (by decide)⟩

/-! Failure policy of the retrieval batch loop (C7). -/

/-- C7: the retrieval loop has no per-query error handling, so when the
underlying per-query fetch throws for one query of a batch, the whole batch
call fails — it does not return an empty list for the bad query together
with the other queries' results. Concretely, with a fetch that throws on
"bad query": the two-query batch containing it errors out, although the
other query on its own succeeds with a non-empty evidence list. -/
theorem c7_throwing_fetch_fails_batch :
    retrieveEvidenceE flakyFetch "guichet"
      ["bad query", "employment contract"] [] 0 "2025-01-01" 0 = Except.error ()
    ∧ ∃ evs cache2 ctr2,
        retrieveEvidenceE flakyFetch "guichet"
          ["employment contract"] [] 0 "2025-01-01" 0 = Except.ok (evs, cache2, ctr2)
        ∧ evs ≠ [] := by
  exact ⟨rfl, _, _, _, rfl, by decide⟩

/-! Idempotence of cached retrieval (C8). -/

/-- Materialization copies the content fields unchanged. -/
theorem materialize_content (results : List RetrievalResult) (source today : String) :
    ∀ ctr : Nat, (materialize results source today ctr).1.map evContent
      = results.map rrContent := by
  induction results with
  | nil => intro ctr; rfl
  | cons r rest ih =>
      intro ctr
      simp only [materialize]
      rcases hm : materialize rest source today (ctr + 1) with ⟨evs, ctr1⟩
      have := ih (ctr + 1)
      rw [hm] at this
      simp [evContent, rrContent, this]

/-- A successful `cacheGet` returns a stored binding. -/
theorem cacheGet_mem :
    ∀ (cache : Cache) (key : String) (e : CacheEntry),
      cacheGet cache key = some e → (key, e) ∈ cache := by
  intro cache key e h
  induction cache with
  | nil => simp [cacheGet] at h
  | cons p rest ih =>
      rcases p with ⟨k, v⟩
      simp only [cacheGet] at h
      by_cases hk : key = k
      · rw [if_pos hk] at h
        injection h with h
        subst hk
        subst h
        exact List.mem_cons_self _ _
      · rw [if_neg hk] at h
        exact List.mem_cons_of_mem _ (ih h)

/-- On a well-formed cache, a cache hit returns results of the invariant
content, and the cache returned alongside (identical, or lazily evicted)
stays well formed. -/
theorem getCachedResults_wf (C : List SourceDoc) (cache : Cache)
    (hwf : WellFormedCache C cache) (now : Nat) (query source : String) :
    (∀ rs, (getCachedResults cache now query source).1 = some rs →
      rs.map rrContent = C)
    ∧ WellFormedCache C (getCachedResults cache now query source).2 := by
  cases hget : cacheGet cache (getCacheKey query source) with
  | none =>
      simp only [getCachedResults, hget]
      exact ⟨fun rs h => by simp at h, hwf⟩
  | some cached =>
      by_cases httl : now - cached.timestamp < CACHE_TTL_MS
      · simp only [getCachedResults, hget, if_pos httl]
        refine ⟨fun rs h => ?_, hwf⟩
        have hmem := cacheGet_mem cache _ cached hget
        have hc := hwf _ hmem
        injection h with h
        rw [← h]
        exact hc
      · simp only [getCachedResults, hget, if_neg httl]
        refine ⟨fun rs h => by simp at h, ?_⟩
        intro p hp
        exact hwf p (List.mem_of_mem_filter hp)

/-- Storing results of the invariant content keeps the cache well formed. -/
theorem cacheResults_wf (C : List SourceDoc) (cache : Cache)
    (hwf : WellFormedCache C cache) (now : Nat) (query source : String)
    (results : List RetrievalResult) (hres : results.map rrContent = C) :
    WellFormedCache C (cacheResults cache now query source results) := by
  intro p hp
  rcases List.mem_cons.mp hp with rfl | hp2
  · exact hres
  · exact hwf p (List.mem_of_mem_filter hp2)

/-- Content of the retrieval loop's output on a well-formed cache for a fetch
of constant content `C`: every query contributes exactly the content `C`
(whether served from the cache or freshly fetched), and the updated cache is
again well formed. -/
theorem retrieveEvidence_content (fetch : String → List RetrievalResult)
    (source : String) (C : List SourceDoc)
    (hfetch : ∀ q, (fetch q).map rrContent = C) (now : Nat) (today : String) :
    ∀ (queries : List String) (cache : Cache) (ctr : Nat),
      WellFormedCache C cache →
      ((retrieveEvidence fetch source queries cache now today ctr).1.map evContent
        = queries.flatMap (fun _ => C))
      ∧ WellFormedCache C
          (retrieveEvidence fetch source queries cache now today ctr).2.1 := by
  intro queries
  induction queries with
  | nil =>
      intro cache ctr hwf
      exact ⟨rfl, hwf⟩
  | cons query rest ih =>
      intro cache ctr hwf
      have hspec := getCachedResults_wf C cache hwf now query source
      rcases hgc : getCachedResults cache now query source with ⟨ors, cache1⟩
      rw [hgc] at hspec
      cases ors with
      | some cached =>
          have hcontent : cached.map rrContent = C := hspec.1 cached rfl
          simp only [retrieveEvidence, hgc]
          rcases hm : materialize cached source today ctr with ⟨evs, ctr1⟩
          have hmc := materialize_content cached source today ctr
          rw [hm] at hmc
          rcases hr : retrieveEvidence fetch source rest cache1 now today ctr1
            with ⟨evsRest, cache2, ctr2⟩
          have hihr := ih cache1 ctr1 hspec.2
          rw [hr] at hihr
          refine ⟨?_, hihr.2⟩
          simp [hmc, hcontent, hihr.1]
      | none =>
          simp only [retrieveEvidence, hgc]
          have hwf2 : WellFormedCache C
              (cacheResults cache1 now query source (fetch query)) :=
            cacheResults_wf C cache1 hspec.2 now query source (fetch query) (hfetch query)
          rcases hm : materialize (fetch query) source today ctr with ⟨evs, ctr1⟩
          have hmc := materialize_content (fetch query) source today ctr
          rw [hm] at hmc
          rcases hr : retrieveEvidence fetch source rest
              (cacheResults cache1 now query source (fetch query)) now today ctr1
            with ⟨evsRest, cache3, ctr2⟩
          have hihr := ih _ ctr1 hwf2
          rw [hr] at hihr
          refine ⟨?_, hihr.2⟩
          simp [hmc, hfetch query, hihr.1]

/-- C8: two calls to the same retrieval adapter with the same queries inside
the TTL window — the second running on the cache state left by the first —
return evidence lists with the same `map evContent` image, i.e. lists of
equal length whose elements agree pairwise on url, title, section and
snippet (ids and dates are regenerated and may differ). This is stated for
both adapters, each under the reachability invariant that its starting cache
only stores content its fetch produces (true of the empty initial cache and
preserved by every retrieval, by `retrieveEvidence_content`). -/
theorem c8_cached_retrieval_idempotent (queries : List String) (language : String)
    (cacheG cacheL : Cache) (t1 t2 : Nat) (d1 d2 : String) (c1 c2 c3 c4 : Nat)
    (hwfG : WellFormedCache guichetMockContent cacheG)
    (hwfL : WellFormedCache legalMockContent cacheL)
    (ht : t1 ≤ t2) (httl : t2 - t1 < CACHE_TTL_MS) :
    ((retrieveGuichetEvidence queries language cacheG t1 d1 c1).1.map evContent
      = (retrieveGuichetEvidence queries language
          (retrieveGuichetEvidence queries language cacheG t1 d1 c1).2.1
          t2 d2 c2).1.map evContent)
    ∧ ((retrieveLegalEvidence queries language cacheL t1 d1 c3).1.map evContent
      = (retrieveLegalEvidence queries language
          (retrieveLegalEvidence queries language cacheL t1 d1 c3).2.1
          t2 d2 c4).1.map evContent) := by
  have hfG : ∀ q, ((fun query => getMockGuichetResults query language d1) q).map rrContent
      = guichetMockContent := fun q => rfl
  have hfG2 : ∀ q, ((fun query => getMockGuichetResults query language d2) q).map rrContent
      = guichetMockContent := fun q => rfl
  have hfL : ∀ q, ((fun query => getMockLegalResults query language d1) q).map rrContent
      = legalMockContent := fun q => rfl
  have hfL2 : ∀ q, ((fun query => getMockLegalResults query language d2) q).map rrContent
      = legalMockContent := fun q => rfl
  constructor
  · simp only [retrieveGuichetEvidence]
    have h1 := retrieveEvidence_content _ "guichet" guichetMockContent hfG t1 d1
      queries cacheG c1 hwfG
    have h2 := retrieveEvidence_content _ "guichet" guichetMockContent hfG2 t2 d2
      queries (retrieveEvidence (fun query => getMockGuichetResults query language d1)
        "guichet" queries cacheG t1 d1 c1).2.1 c2 h1.2
    rw [h1.1, h2.1]
  · simp only [retrieveLegalEvidence]
    have h1 := retrieveEvidence_content _ "legal" legalMockContent hfL t1 d1
      queries cacheL c3 hwfL
    have h2 := retrieveEvidence_content _ "legal" legalMockContent hfL2 t2 d2
      queries (retrieveEvidence (fun query => getMockLegalResults query language d1)
        "legal" queries cacheL t1 d1 c3).2.1 c4 h1.2
    rw [h1.1, h2.1]

/-- Witness for C8 on the empty initial cache: the first call fetches and
caches, the second call (one millisecond later) hits the cache, and the two
evidence lists carry identical content. -/
theorem c8_cached_retrieval_idempotent_witness :
    ((retrieveGuichetEvidence ["a"] "en" [] 0 "2025-01-01" 0).1.map evContent
      = (retrieveGuichetEvidence ["a"] "en"
          (retrieveGuichetEvidence ["a"] "en" [] 0 "2025-01-01" 0).2.1
          1 "2025-01-02" 7).1.map evContent)
    ∧ ((retrieveLegalEvidence ["a"] "en" [] 0 "2025-01-01" 0).1.map evContent
      = (retrieveLegalEvidence ["a"] "en"
          (retrieveLegalEvidence ["a"] "en" [] 0 "2025-01-01" 0).2.1
          1 "2025-01-02" 7).1.map evContent) :=
  c8_cached_retrieval_idempotent ["a"] "en" [] [] 0 1 "2025-01-01" "2025-01-02" 0 7 0 7
    (fun p hp => absurd hp (List.not_mem_nil p))
    (fun p hp => absurd hp (List.not_mem_nil p))
    (by decide) (by decide)

/-! Citation grouping (C9). -/

theorem mem_firstSeenAux :
    ∀ (ks seen : List String) (k : String),
      k ∈ firstSeenAux seen ks ↔ k ∈ ks ∧ k ∉ seen := by
  intro ks
  induction ks with
  | nil => intro seen k; simp [firstSeenAux]
  | cons k0 rest ih =>
      intro seen k
      simp only [firstSeenAux]
      by_cases h : k0 ∈ seen
      · rw [if_pos h, ih]
        simp only [List.mem_cons]
        constructor
        · rintro ⟨h1, h2⟩
          exact ⟨Or.inr h1, h2⟩
        · rintro ⟨h1 | h1, h2⟩
          · exact absurd (h1 ▸ h) h2
          · exact ⟨h1, h2⟩
      · rw [if_neg h]
        simp only [List.mem_cons, ih]
        constructor
        · rintro (rfl | ⟨h1, h2⟩)
          · exact ⟨Or.inl rfl, h⟩
          · exact ⟨Or.inr h1, fun hs => h2 (Or.inr hs)⟩
        · rintro ⟨rfl | h1, h2⟩
          · exact Or.inl rfl
          · by_cases hk0 : k = k0
            · exact Or.inl hk0
            · exact Or.inr ⟨h1, by simp [hk0, h2]⟩

theorem nodup_firstSeenAux :
    ∀ (ks seen : List String), (firstSeenAux seen ks).Nodup := by
  intro ks
  induction ks with
  | nil => intro seen; simp [firstSeenAux]
  | cons k0 rest ih =>
      intro seen
      simp only [firstSeenAux]
      by_cases h : k0 ∈ seen
      · rw [if_pos h]; exact ih seen
      · rw [if_neg h]
        refine List.nodup_cons.mpr ⟨fun hc => ?_, ih (k0 :: seen)⟩
        exact ((mem_firstSeenAux rest (k0 :: seen) k0).mp hc).2 (List.mem_cons_self _ _)

theorem firstSeenAux_snoc :
    ∀ (ks seen : List String) (k : String),
      firstSeenAux seen (ks ++ [k])
        = firstSeenAux seen ks ++ (if k ∈ seen ∨ k ∈ ks then [] else [k]) := by
  intro ks
  induction ks with
  | nil =>
      intro seen k
      simp only [List.nil_append, firstSeenAux]
      by_cases h : k ∈ seen
      · rw [if_pos h, if_pos (Or.inl h)]
      · rw [if_neg h, if_neg (by simp [h])]
  | cons k0 rest ih =>
      intro seen k
      simp only [List.cons_append, firstSeenAux, List.append_eq]
      by_cases h : k0 ∈ seen
      · rw [if_pos h, if_pos h, ih]
        have hcond : (k ∈ seen ∨ k ∈ rest) ↔ (k ∈ seen ∨ k ∈ k0 :: rest) := by
          simp only [List.mem_cons]
          constructor
          · rintro (h1 | h1)
            · exact Or.inl h1
            · exact Or.inr (Or.inr h1)
          · rintro (h1 | rfl | h1)
            · exact Or.inl h1
            · exact Or.inl h
            · exact Or.inr h1
        rw [if_congr hcond rfl rfl]
      · rw [if_neg h, if_neg h, ih, List.cons_append]
        have hcond : (k ∈ k0 :: seen ∨ k ∈ rest) ↔ (k ∈ seen ∨ k ∈ k0 :: rest) := by
          simp only [List.mem_cons]
          constructor
          · rintro ((rfl | h1) | h1)
            · exact Or.inr (Or.inl rfl)
            · exact Or.inl h1
            · exact Or.inr (Or.inr h1)
          · rintro (h1 | rfl | h1)
            · exact Or.inl (Or.inr h1)
            · exact Or.inl (Or.inl rfl)
            · exact Or.inr h1
        rw [if_congr hcond rfl rfl]

theorem groupFor_snoc (l : List Evidence) (e : Evidence) (k : String) :
    groupFor (l ++ [e]) k
      = groupFor l k ++ (if citeKey e == k then [e] else []) := by
  simp only [groupFor, List.filter_append]
  congr 1
  cases hbe : citeKey e == k <;> simp [List.filter, hbe]

theorem mem_groupFor_key (l : List Evidence) (k : String) :
    ∀ e2 ∈ groupFor l k, citeKey e2 = k := by
  intro e2 he2
  have := (List.mem_filter.mp he2).2
  exact beq_iff_eq.mp this

theorem groupFor_eq_nil_iff (l : List Evidence) (k : String) :
    groupFor l k = [] ↔ k ∉ l.map citeKey := by
  simp only [groupFor, List.filter_eq_nil_iff, beq_iff_eq, List.mem_map]
  constructor
  · rintro h ⟨e2, he2, rfl⟩
    exact h e2 he2 rfl
  · intro h e2 he2 hk
    exact h ⟨e2, he2, hk⟩

theorem keyOfCitation_citationOfGroup (l : List Evidence) (k : String)
    (hk : k ∈ l.map citeKey) :
    keyOfCitation (citationOfGroup (groupFor l k)) = k := by
  have hne : groupFor l k ≠ [] := fun h => ((groupFor_eq_nil_iff l k).mp h) hk
  cases hg : groupFor l k with
  | nil => exact absurd hg hne
  | cons e0 rest =>
      have he0 : citeKey e0 = k :=
        mem_groupFor_key l k e0 (hg ▸ List.mem_cons_self e0 rest)
      simpa [citationOfGroup, keyOfCitation, citeKey] using he0

theorem citationOfGroup_snoc (g : List Evidence) (e : Evidence) (hne : g ≠ []) :
    citationOfGroup (g ++ [e]) = appendId (citationOfGroup g) e := by
  cases g with
  | nil => exact absurd rfl hne
  | cons e0 rest => simp [citationOfGroup, appendId]

theorem addToGroup_no_match :
    ∀ (cs : List Citation) (e : Evidence),
      (∀ c ∈ cs, keyOfCitation c ≠ citeKey e) →
      addToGroup cs e = cs ++ [newCitation e] := by
  intro cs
  induction cs with
  | nil => intro e h; rfl
  | cons c0 rest ih =>
      intro e h
      simp only [addToGroup]
      rw [if_neg (h c0 (List.mem_cons_self c0 rest))]
      rw [ih e (fun c hc => h c (List.mem_cons_of_mem c0 hc))]
      rfl

theorem addToGroup_found :
    ∀ (cs1 : List Citation) (c : Citation) (cs2 : List Citation) (e : Evidence),
      (∀ c2 ∈ cs1, keyOfCitation c2 ≠ citeKey e) →
      keyOfCitation c = citeKey e →
      addToGroup (cs1 ++ c :: cs2) e = cs1 ++ appendId c e :: cs2 := by
  intro cs1
  induction cs1 with
  | nil =>
      intro c cs2 e _ hc
      simp only [List.nil_append, addToGroup]
      rw [if_pos hc]
  | cons c0 rest ih =>
      intro c cs2 e h hc
      simp only [List.cons_append, addToGroup, List.append_eq]
      rw [if_neg (h c0 (List.mem_cons_self c0 rest))]
      rw [ih c cs2 e (fun c2 hc2 => h c2 (List.mem_cons_of_mem c0 hc2)) hc]

/-- One `addToGroup` step on the spec-side citations of a list produces the
spec-side citations of the list extended by one evidence item. -/
theorem addToGroup_specCitations (l : List Evidence) (e : Evidence) :
    addToGroup (specCitations l) e = specCitations (l ++ [e]) := by
  have hmapsnoc : (l ++ [e]).map citeKey = l.map citeKey ++ [citeKey e] := by
    simp
  by_cases hk : citeKey e ∈ l.map citeKey
  · have hkeys : firstSeenAux [] ((l ++ [e]).map citeKey)
        = firstSeenAux [] (l.map citeKey) := by
      rw [hmapsnoc, firstSeenAux_snoc, if_pos (Or.inr hk), List.append_nil]
    have hmem : citeKey e ∈ firstSeenAux [] (l.map citeKey) :=
      (mem_firstSeenAux _ _ _).mpr ⟨hk, List.not_mem_nil _⟩
    obtain ⟨ks1, ks2, hks⟩ := List.append_of_mem hmem
    have hnd := nodup_firstSeenAux (l.map citeKey) []
    rw [hks] at hnd
    obtain ⟨hnd1, hnd2, hdisj⟩ := List.nodup_append.mp hnd
    have hnotin1 : citeKey e ∉ ks1 :=
      fun hc => hdisj hc (List.mem_cons_self _ _)
    have hnotin2 : citeKey e ∉ ks2 := (List.nodup_cons.mp hnd2).1
    have hsub1 : ∀ k ∈ ks1, k ∈ l.map citeKey := by
      intro k hk1
      exact ((mem_firstSeenAux _ _ _).mp
        (hks ▸ List.mem_append_left _ hk1)).1
    have hsub2 : ∀ k ∈ ks2, k ∈ l.map citeKey := by
      intro k hk2
      exact ((mem_firstSeenAux _ _ _).mp
        (hks ▸ List.mem_append_right _ (List.mem_cons_of_mem _ hk2))).1
    have f1 : ∀ k ∈ ks1, citationOfGroup (groupFor (l ++ [e]) k)
        = citationOfGroup (groupFor l k) := by
      intro k hk1
      have hne : ¬(citeKey e == k) = true := by
        simp only [beq_iff_eq]
        exact fun h => hnotin1 (h ▸ hk1)
      rw [groupFor_snoc, if_neg hne, List.append_nil]
    have f2 : ∀ k ∈ ks2, citationOfGroup (groupFor (l ++ [e]) k)
        = citationOfGroup (groupFor l k) := by
      intro k hk2
      have hne : ¬(citeKey e == k) = true := by
        simp only [beq_iff_eq]
        exact fun h => hnotin2 (h ▸ hk2)
      rw [groupFor_snoc, if_neg hne, List.append_nil]
    have hmid : citationOfGroup (groupFor (l ++ [e]) (citeKey e))
        = appendId (citationOfGroup (groupFor l (citeKey e))) e := by
      rw [groupFor_snoc, if_pos (beq_self_eq_true _)]
      exact citationOfGroup_snoc _ e
        (fun hnil => ((groupFor_eq_nil_iff l (citeKey e)).mp hnil) hk)
    have hkeys1 : ∀ c ∈ ks1.map (fun k => citationOfGroup (groupFor l k)),
        keyOfCitation c ≠ citeKey e := by
      intro c hc
      obtain ⟨k, hk1, rfl⟩ := List.mem_map.mp hc
      rw [keyOfCitation_citationOfGroup l k (hsub1 k hk1)]
      exact fun h => hnotin1 (h ▸ hk1)
    have hkeymid : keyOfCitation (citationOfGroup (groupFor l (citeKey e)))
        = citeKey e := keyOfCitation_citationOfGroup l _ hk
    calc addToGroup (specCitations l) e
        = ks1.map (fun k => citationOfGroup (groupFor l k))
          ++ appendId (citationOfGroup (groupFor l (citeKey e))) e
            :: ks2.map (fun k => citationOfGroup (groupFor l k)) := by
          rw [specCitations, hks, List.map_append, List.map_cons]
          exact addToGroup_found _ _ _ e hkeys1 hkeymid
      _ = specCitations (l ++ [e]) := by
          rw [specCitations, hkeys, hks, List.map_append, List.map_cons]
          rw [List.map_congr_left f1, List.map_congr_left f2, hmid]
  · have hkeys : firstSeenAux [] ((l ++ [e]).map citeKey)
        = firstSeenAux [] (l.map citeKey) ++ [citeKey e] := by
      rw [hmapsnoc, firstSeenAux_snoc, if_neg (by simp [hk])]
    have hlast : citationOfGroup (groupFor (l ++ [e]) (citeKey e))
        = newCitation e := by
      have hnil : groupFor l (citeKey e) = [] := (groupFor_eq_nil_iff l _).mpr hk
      rw [groupFor_snoc, if_pos (beq_self_eq_true _), hnil, List.nil_append]
      rfl
    have f1 : ∀ k ∈ firstSeenAux [] (l.map citeKey),
        citationOfGroup (groupFor (l ++ [e]) k)
          = citationOfGroup (groupFor l k) := by
      intro k hk1
      have hkin : k ∈ l.map citeKey := ((mem_firstSeenAux _ _ _).mp hk1).1
      have hne : ¬(citeKey e == k) = true := by
        simp only [beq_iff_eq]
        exact fun h => hk (h ▸ hkin)
      rw [groupFor_snoc, if_neg hne, List.append_nil]
    have hall : ∀ c ∈ specCitations l, keyOfCitation c ≠ citeKey e := by
      intro c hc
      obtain ⟨k, hk1, rfl⟩ := List.mem_map.mp hc
      have hkin : k ∈ l.map citeKey := ((mem_firstSeenAux _ _ _).mp hk1).1
      rw [keyOfCitation_citationOfGroup l k hkin]
      exact fun h => hk (h ▸ hkin)
    rw [addToGroup_no_match _ _ hall]
    show specCitations l ++ [newCitation e] = specCitations (l ++ [e])
    rw [specCitations, specCitations, hkeys, List.map_append, List.map_cons,
      List.map_nil]
    rw [List.map_congr_left f1, hlast]

/-- C9, counterexample: two evidence items with distinct (url, section) pairs
whose concatenated keys collide ("a|b" + "|" + "c" versus "a" + "|" + "b|c")
are merged into a single citation, so `buildCitations` does not return one
citation per distinct (url, section) pair. -/
theorem c9_key_collision_counterexample :
    (Evidence.url ⟨"idA", "a|b", "tA", "c", "sn", "guichet", "d"⟩,
      Evidence.«section» ⟨"idA", "a|b", "tA", "c", "sn", "guichet", "d"⟩)
    ≠ (Evidence.url ⟨"idB", "a", "tB", "b|c", "sn", "guichet", "d"⟩,
      Evidence.«section» ⟨"idB", "a", "tB", "b|c", "sn", "guichet", "d"⟩)
    ∧ buildCitations
        [⟨"idA", "a|b", "tA", "c", "sn", "guichet", "d"⟩,
         ⟨"idB", "a", "tB", "b|c", "sn", "guichet", "d"⟩]
      = [⟨"tA", "a|b", "c", "d", ["idA", "idB"]⟩] := by
  exact ⟨by decide, rfl⟩

/-- C9, amended (the counterexample forces grouping to be stated on the
concatenated string key rather than on the (url, section) pair):
`buildCitations` returns exactly one citation per distinct grouping key
`url ++ "|" ++ section` occurring in the evidence list, in first-seen order
of keys; each citation takes its title, url, section and date from the first
item of its group and collects the evidence ids of exactly the items bearing
that key, in input order. Distinct (url, section) pairs with equal
concatenations are merged; for evidence whose urls and sections contain no
"|" the key determines the pair and the original claim's reading holds. -/
theorem c9_buildCitations_groups (evidence : List Evidence) :
    buildCitations evidence = specCitations evidence := by
  induction evidence using List.reverseRecOn with
  | nil => rfl
  | append_singleton l e ih =>
      rw [buildCitations, List.foldl_append, List.foldl_cons, List.foldl_nil]
      rw [← buildCitations, ih]
      exact addToGroup_specCitations l e

end Workforce
